import Mathlib

/-!
Verification development for the Arbitra-2 bid synchronization engine.

The JavaScript sources are shallowly embedded: numeric values (ETH prices)
are modelled as exact rationals (the idealized decimal arithmetic the code
manipulates through JS numbers), fallible I/O steps are modelled by Boolean
outcome oracles, Redis-backed state by explicit functional state, and the
async operation queue by a recursive drain function on an explicit queue
state.  Every definition is translated from the source file it names.
-/

namespace Arbitra

/-! ### BidCalculator (A2 Blur bidder, `calculateBidWithMargin`)

Source: the Blur-bidder monitor script (src/unnamed/part_004), lines 48-94.
`PROFIT_MARGIN = 0.005`; prices are floored to the 0.01 tick. -/

/-- The constant `PROFIT_MARGIN = 0.005` of the Blur bidder script. -/
def PROFIT_MARGIN : ℚ := 5 / 1000

/-- Function `calculateBidWithMargin(observedEth)` from the Blur bidder script:
subtract the profit margin; if the result is not positive return the
sentinel `0`, otherwise floor to two decimals
(`Math.floor(raw * 100) / 100`). -/
def calculateBidWithMargin (observedEth : ℚ) : ℚ :=
  let raw := observedEth - PROFIT_MARGIN
  if raw ≤ 0 then 0 else (⌊raw * 100⌋ : ℚ) / 100

/-! ### BidManager calculators (src/src/services/BidManager.js, lines 113-121)

The config constants of src/src/config/config.js are decimal STRINGS
(`bidDeduction: '0.005'`, `outbidAmount: '0.00001'`).  A JS `-` coerces a
string operand to the number it denotes, so the subtractions are modelled
over the rationals those strings denote; a JS `+` with a string operand
concatenates instead, which `calculateOpenseaAmount` runs into — its result
is modelled faithfully as a dynamic JS value (number or string) built by
the `+` dispatch `jsAdd`. -/

/-- The rational denoted by config string `config.bid.blur.bidDeduction`
(`'0.005'`), as produced by the JS `-` coercion. -/
def blurBidDeduction : ℚ := 5 / 1000

/-- The rational denoted by config string `config.bid.opensea.bidDeduction`
(`'0.005'`), as produced by the JS `-` coercion. -/
def openseaBidDeduction : ℚ := 5 / 1000

/-- The rational denoted by config string `config.bid.opensea.outbidAmount`
(`'0.00001'`) — the outbid-increment parameter the spec refers to.  The
source value itself is the string: see `openseaOutbidAmountStr`. -/
def openseaOutbidAmount : ℚ := 1 / 100000

/-- Config constant `config.bid.opensea.outbidAmount` as the source holds
it: the string `'0.00001'`. -/
def openseaOutbidAmountStr : String := "0.00001"

/-- Function `calculateBlurAmount(currentBid)` of BidManager: subtract the
deduction (JS `-` coerces the config string to a number) and floor to the
0.01 tick (`Math.floor(amount * 100) / 100`). -/
def calculateBlurAmount (currentBid : ℚ) : ℚ :=
  let amount := currentBid - blurBidDeduction
  (⌊amount * 100⌋ : ℚ) / 100

/-- A dynamic JS value as manipulated by the BidManager calculators: a
number or a string. -/
inductive JSValue
  | num (q : ℚ)
  | str (s : String)
deriving DecidableEq, Repr

/-- Fractional decimal digits of a rational in `[0, 1)`, fuel-bounded (20
digits, the most JS number printing ever emits). -/
def fracDigits : ℚ → ℕ → List Char
  | _, 0 => []
  | f, fuel + 1 =>
    if f = 0 then []
    else
      Char.ofNat (48 + (⌊f * 10⌋).toNat % 10) ::
        fracDigits (f * 10 - ⌊f * 10⌋) fuel

/-- Decimal rendering of a non-negative rational: integer part, and the
fractional digits when non-zero. -/
def jsNumToStringNonneg (q : ℚ) : String :=
  let ip := (⌊q⌋).toNat
  let fr := q - ⌊q⌋
  if fr = 0 then toString ip
  else toString ip ++ "." ++ String.mk (fracDigits fr 20)

/-- Rendering of a number by the JS string conversion, modelled for the
terminating decimals the engine manipulates: optional sign, integer part,
fractional digits. -/
def jsNumToString (q : ℚ) : String :=
  if q < 0 then "-" ++ jsNumToStringNonneg (-q) else jsNumToStringNonneg q

/-- The JS `+` operator on our value subset: numeric addition on two
numbers, string concatenation as soon as either operand is a string (the
number operand is rendered by the string conversion). -/
def jsAdd : JSValue → JSValue → JSValue
  | JSValue.num a, JSValue.num b => JSValue.num (a + b)
  | JSValue.num a, JSValue.str b => JSValue.str (jsNumToString a ++ b)
  | JSValue.str a, JSValue.num b => JSValue.str (a ++ jsNumToString b)
  | JSValue.str a, JSValue.str b => JSValue.str (a ++ b)

/-- Function `calculateOpenseaAmount(currentBid)` of BidManager: subtract
the deduction (JS `-` coerces the config string `'0.005'` to a number),
then add `config.bid.opensea.outbidAmount`.  That config value is the
STRING `'0.00001'`, so the final `+` concatenates: the function returns a
non-numeric string, and no rounding of any kind is applied. -/
def calculateOpenseaAmount (currentBid : ℚ) : JSValue :=
  let amount := currentBid - openseaBidDeduction
  jsAdd (JSValue.num amount) (JSValue.str openseaOutbidAmountStr)

/-! ### SigningSubmissionProtocol (`submitNewBlurBid`, part_004 lines 214-279)

The four fallible steps (format request, BLUR-signature extraction, typed-data
signing, submit request) are modelled by Boolean outcome oracles.  The
function is rendered as the list of externally visible actions it performs;
the Redis write of step 6 stores `bidEth.toFixed(2)`, whose denoted value is
`fixed2 bidEth`. -/

/-- Outcomes of the fallible steps of `submitNewBlurBid`. -/
structure BlurSubmitSteps where
  formatOk : Bool
  sigFound : Bool
  signOk : Bool
  submitOk : Bool
deriving DecidableEq, Repr

/-- The rational denoted by JS `x.toFixed(2)` for the non-negative amounts
the engine renders: round half-up to two decimals. -/
def fixed2 (x : ℚ) : ℚ := (round (x * 100) : ℚ) / 100

/-- Externally visible actions of the bid pipeline: a submit POST against the
marketplace, a write to the `Bid:Blur:<contract>` ledger key, and a cancel of
an old bid.  The cancel constructor is never produced by the embedded code:
cancellation is a TODO comment in the source. -/
inductive BidAction
  | submitAttempt (amount : ℚ)
  | ledgerWrite (amount : ℚ)
  | cancelOld (amount : ℚ)
deriving DecidableEq, Repr

/-- Protocol function `submitNewBlurBid(contract, bidEth, redisClient, note)`: each failing step
returns early with no further action; only after a successful submit is the
ledger key written with the two-decimal rendering of the bid. -/
def submitNewBlurBid (bidEth : ℚ) (s : BlurSubmitSteps) : List BidAction :=
  if ¬ s.formatOk then [] else
  if ¬ s.sigFound then [] else
  if ¬ s.signOk then [] else
  if s.submitOk then
    [BidAction.submitAttempt bidEth, BidAction.ledgerWrite (fixed2 bidEth)]
  else
    [BidAction.submitAttempt bidEth]

/-- Replay of a pipeline action list against the `Bid:Blur:<contract>` ledger
cell (`none` = key absent, `some v` = stored two-decimal value `v`). -/
def applyActions (ledger : Option ℚ) (as : List BidAction) : Option ℚ :=
  as.foldl
    (fun L a =>
      match a with
      | BidAction.ledgerWrite v => some v
      | _ => L)
    ledger

/-! ### BidLifecycleController (`processFromOpenSea` / `processFromBlur`,
part_004 lines 105-203)

The price-extraction preamble (JSON parse / bare-numeric parse) is modelled
by an `Option ℚ` input, `none` standing for the malformed-data early return.
The stored old bid is the parse of the `Bid:Blur:<contract>` key, `none`
standing for an absent key or a NaN parse. -/

/-- Handler `processFromOpenSea(contract, rawJson, redisClient)` reduced to its
decision logic: skip on malformed data, skip on a non-positive calculated
bid, skip when the stored bid equals the calculated bid exactly, otherwise
run `submitNewBlurBid` (the cancel of an old bid is only a log line and a
TODO comment in the source, so no cancel action is produced). -/
def processFromOpenSea (osOfferEth : Option ℚ) (oldBid : Option ℚ)
    (s : BlurSubmitSteps) : List BidAction :=
  match osOfferEth with
  | none => []
  | some p =>
    let bidEth := calculateBidWithMargin p
    if bidEth ≤ 0 then [] else
    match oldBid with
    | some old => if old = bidEth then [] else submitNewBlurBid bidEth s
    | none => submitNewBlurBid bidEth s

/-- Handler `processFromBlur(contract, rawString, redisClient)` reduced to its
decision logic; identical to the OpenSea trigger path after price
extraction. -/
def processFromBlur (blurBestPrice : Option ℚ) (oldBid : Option ℚ)
    (s : BlurSubmitSteps) : List BidAction :=
  match blurBestPrice with
  | none => []
  | some p =>
    let bidEth := calculateBidWithMargin p
    if bidEth ≤ 0 then [] else
    match oldBid with
    | some old => if old = bidEth then [] else submitNewBlurBid bidEth s
    | none => submitNewBlurBid bidEth s

/-! ### PriceSignalMonitor (part_004, `main`: initial population lines 294-325,
polling loop lines 331-394)

Redis reads are modelled as `Option String` (`none` = absent key; the source
also skips the empty string, which is falsy in JS).  `jsTrim` is a structural
model of JS `String.prototype.trim` (strip whitespace from both ends). -/

/-- Structural model of JS `raw.trim()`: drop whitespace characters from both
ends of the string. -/
def jsTrim (s : String) : String :=
  ⟨(((s.data.dropWhile Char.isWhitespace).reverse).dropWhile Char.isWhitespace).reverse⟩

/-- One key's step of the polling loop (the per-key body of the
`setInterval` callback, identical for the OpenSea block at lines 335-360 and
the Blur block at lines 364-389): skip a missing or empty value; on a
brand-new key record the trimmed value and process; on a changed trimmed
value record and process; otherwise do nothing.  Returns the new cached
value and whether the contract was processed (a ChangeEvent acted upon). -/
def pollKey (lastSeen : Option String) (raw : Option String) :
    Option String × Bool :=
  match raw with
  | none => (lastSeen, false)
  | some r =>
    if r = "" then (lastSeen, false)
    else
      let rawTrim := jsTrim r
      match lastSeen with
      | none => (some rawTrim, true)
      | some prevRaw =>
        if prevRaw ≠ rawTrim then (some rawTrim, true) else (lastSeen, false)

/-- Initial population of the OpenSea keys (lines 294-308): every existing
key with a non-empty value is recorded into `lastSeenOpenSea` (trimmed) and
immediately processed (`processFromOpenSea`).  Returns the recorded cache
as an association list and the list of contracts acted upon. -/
def initOpenSea : List (String × Option String) →
    List (String × String) × List String
  | [] => ([], [])
  | (contract, raw) :: rest =>
    let tail := initOpenSea rest
    match raw with
    | none => tail
    | some r =>
      if r = "" then tail
      else ((contract, jsTrim r) :: tail.1, contract :: tail.2)

/-- Initial population of the Blur keys (lines 310-325): every existing key
with a non-empty value is recorded into `lastSeenBlur` (trimmed) but
`processFromBlur` is NOT called — the source stores the value only.  Returns
the recorded cache and the (empty) list of contracts acted upon. -/
def initBlur : List (String × Option String) →
    List (String × String) × List String
  | [] => ([], [])
  | (contract, raw) :: rest =>
    let tail := initBlur rest
    match raw with
    | none => tail
    | some r =>
      if r = "" then tail
      else ((contract, jsTrim r) :: tail.1, tail.2)

/-! ### OperationQueue (src/src/services/BidManager.js lines 42-66, identical
in src/unnamed/part_000 lines 14-41)

An operation is modelled by an identifier and a Boolean telling whether the
operation throws when executed; the drain appends the identifier of every
executed operation to a log (the `try/catch` logs and swallows a throw, so
the outcome does not influence the drain). -/

/-- A queued bid operation: an identifier and whether executing it
succeeds (`ok = false` models an operation that throws). -/
structure QOp where
  id : ℕ
  ok : Bool
deriving DecidableEq, Repr

/-- State of the BidManager queue: the pending operation list (`#bidQueue`),
the `#processingQueue` flag, and the log of executed operation ids. -/
structure QState where
  queue : List QOp
  processing : Bool
  executed : List ℕ
deriving DecidableEq, Repr

/-- Drain method of the queue: with an empty queue, clear the processing flag and
stop; otherwise set the flag, shift the first operation, execute it inside
`try/catch` (the id is logged whether it succeeds or throws) and recurse. -/
def processQueue : QState → QState
  | ⟨[], _, ex⟩ => ⟨[], false, ex⟩
  | ⟨op :: rest, _, ex⟩ => processQueue ⟨rest, true, ex ++ [op.id]⟩
termination_by st => st.queue.length

/-- Enqueue method `addToQueue(operation)`: push the operation, and start the drain only
when no drain is in progress. -/
def addToQueue (st : QState) (op : QOp) : QState :=
  let pushed : QState := ⟨st.queue ++ [op], st.processing, st.executed⟩
  if st.processing then pushed else processQueue pushed

/-! ### OrderLedger (src/src/services/BidManager.js `submitBid`/`cancelBid`,
lines 128-180, over src/unnamed/part_001 `BidStorage` and
src/src/models/NftBid.js)

The storage map (collection → per-platform bid lists) is modelled as a
function; an absent collection and a present collection with empty lists
behave identically in every cited operation (both leave `removeBid` a no-op
after its caught throw), so the functional model is faithful.  Randomly
generated nonces, the clock and platform-call outcomes enter as explicit
parameters of the operations. -/

/-- The two marketplaces of the system. -/
inductive Platform
  | blur
  | opensea
deriving DecidableEq, Repr

/-- Status values of `NftBid` (src/src/models/NftBid.js); a new bid is
constructed with status `pending`. -/
inductive BidStatus
  | pending
  | active
  | cancelled
  | invalid
deriving DecidableEq, Repr

/-- An `NftBid` record, restricted to the fields the cited ledger logic
reads (`tokenId`, `signature` and `createdAt` are never consulted by
`BidStorage` or `submitBid`/`cancelBid`). -/
structure NftBid where
  collection : String
  platform : Platform
  amount : ℚ
  expirationTime : ℕ
  nonce : ℕ
  status : BidStatus
deriving DecidableEq, Repr

/-- Hex-digit test for the address check. -/
def isHexDigit (c : Char) : Bool :=
  c.isDigit || ('a' ≤ c && c ≤ 'f') || ('A' ≤ c && c ≤ 'F')

/-- Model of `ethers.isAddress` for the plain (non-checksummed) addresses
the system uses: `0x` followed by exactly 40 hex digits. -/
def isAddress (s : String) : Bool :=
  match s.data with
  | '0' :: 'x' :: rest => rest.length = 40 && rest.all isHexDigit
  | _ => false

/-- Config bounds `config.bid.<platform>.minBidAmount` (the string
`'0.01'` for both platforms). -/
def minBidAmount (_p : Platform) : ℚ := 1 / 100

/-- Config bounds `config.bid.<platform>.maxBidAmount` (the string `'100'`
for both platforms). -/
def maxBidAmount (_p : Platform) : ℚ := 100

/-- Validation `NftBid.validate()`: address well-formed, platform in the allowed set
(guaranteed by the `Platform` type), amount a positive number inside the
configured bounds, and expiration still in the future. -/
def validateBid (now : ℕ) (b : NftBid) : Prop :=
  isAddress b.collection = true ∧ 0 < b.amount ∧
    minBidAmount b.platform ≤ b.amount ∧ b.amount ≤ maxBidAmount b.platform ∧
    now < b.expirationTime

instance (now : ℕ) (b : NftBid) : Decidable (validateBid now b) := by
  unfold validateBid; infer_instance

/-- The bid-storage state: per collection and platform, the stored list of
bids (`BidStorage.bids`). -/
def Storage : Type := String → Platform → List NftBid

/-- The empty storage. -/
def emptyStorage : Storage := fun _ _ => []

/-- Point update of the storage at one (collection, platform) key. -/
def setKey (st : Storage) (c : String) (p : Platform) (l : List NftBid) :
    Storage :=
  fun c2 p2 => if c2 = c ∧ p2 = p then l else st c2 p2

/-- The filter of `BidStorage.getActiveBids`: bids with status `active`
whose expiration lies strictly in the future. -/
def activeBidsIn (now : ℕ) (l : List NftBid) : List NftBid :=
  l.filter fun b => decide (b.status = BidStatus.active ∧ now < b.expirationTime)

/-- Update primitive `BidStorage.updateBid`: replace the first bid carrying the given nonce
(`findIndex` + index assignment). -/
def replaceFirstByNonce : List NftBid → ℕ → NftBid → List NftBid
  | [], _, _ => []
  | b :: rest, n, b2 =>
    if b.nonce = n then b2 :: rest else b :: replaceFirstByNonce rest n b2

/-- Removal primitive `BidStorage.removeBid`: remove the first bid carrying the given nonce
(`findIndex` + `splice(index, 1)`); when no bid matches the source throws,
the queue catches, and the state is unchanged. -/
def removeFirstByNonce : List NftBid → ℕ → List NftBid
  | [], _ => []
  | b :: rest, n =>
    if b.nonce = n then rest else b :: removeFirstByNonce rest n

/-- A serialized ledger operation as enqueued by `submitBid` / `cancelBid`.
The fresh nonce and expiration of a would-be new bid (randomly generated /
clock-derived in the source) and the outcome of the platform submission call
are oracle parameters. -/
inductive LedgerOp
  | submit (platform : Platform) (collection : String) (amount : ℚ)
      (nonce expirationTime : ℕ) (platformOk : Bool)
  | cancel (platform : Platform) (collection : String) (nonce : ℕ)
deriving DecidableEq, Repr

/-- One serialized operation against the storage.

`submit` (BidManager.submitBid, lines 128-164): fetch the active bids for
the key; if one exists, update its amount in place when different (no
platform call); otherwise call `submitPlatformBid` and, when it succeeds and
the new `pending` bid validates, append it (`BidStorage.addBid`).

`cancel` (BidManager.cancelBid, lines 167-180): the platform cancel is a
TODO stub that never throws; `removeBid` removes the first bid with the
nonce, or throws (caught by the queue) leaving the state unchanged. -/
def applyOp (now : ℕ) (st : Storage) : LedgerOp → Storage
  | LedgerOp.submit p c a n e ok =>
    let l := st c p
    match activeBidsIn now l with
    | existing :: _ =>
      if existing.amount ≠ a then
        setKey st c p (replaceFirstByNonce l existing.nonce { existing with amount := a })
      else st
    | [] =>
      let newBid : NftBid := ⟨c, p, a, e, n, BidStatus.pending⟩
      if ok = true ∧ validateBid now newBid then setKey st c p (l ++ [newBid])
      else st
  | LedgerOp.cancel p c n => setKey st c p (removeFirstByNonce (st c p) n)

/-- A serialized sequence of ledger operations (the order the single-slot
OperationQueue executes them in). -/
def applyOps (now : ℕ) (st : Storage) (ops : List LedgerOp) : Storage :=
  ops.foldl (applyOp now) st

/-- Number of bids in non-terminal status (`pending` or `active`) stored
for one (collection, platform) key. -/
def nonTerminalCount (st : Storage) (c : String) (p : Platform) : ℕ :=
  (st c p |>.filter fun b =>
    decide (b.status = BidStatus.pending ∨ b.status = BidStatus.active)).length

/-- Number of active, unexpired bids stored for one key. -/
def activeCount (now : ℕ) (st : Storage) (c : String) (p : Platform) : ℕ :=
  (activeBidsIn now (st c p)).length

/-- Nonces currently stored at a key. -/
def keyNonces (st : Storage) (c : String) (p : Platform) : List ℕ :=
  (st c p).map NftBid.nonce

/-- Freshness of the oracle nonces of a serialized operation list with
respect to one key: every `submit` aimed at that key brings a nonce not yet
stored there at the moment it executes (the source draws 32 random bytes,
so collisions are excluded by construction). -/
def freshOpsFor (now : ℕ) (st : Storage) (c : String) (p : Platform) :
    List LedgerOp → Bool
  | [] => true
  | op :: rest =>
    (match op with
     | LedgerOp.submit p2 c2 _ n _ _ =>
       !(c2 = c && p2 = p) || !(n ∈ keyNonces st c p)
     | LedgerOp.cancel _ _ _ => true) &&
    freshOpsFor now (applyOp now st op) c p rest

/-- Head-of-operation freshness: a submit aimed at the observed key brings
a nonce not currently stored there. -/
def opFreshAt (st : Storage) (c : String) (p : Platform) : LedgerOp → Prop
  | LedgerOp.submit p2 c2 _ n _ _ => (c2 = c ∧ p2 = p) → n ∉ keyNonces st c p
  | LedgerOp.cancel _ _ _ => True

/-! ### Helper lemmas -/

/-- Unfolding of the calculator on profitable prices. -/
theorem calculateBidWithMargin_of_pos {p : ℚ} (h : 0 < p - PROFIT_MARGIN) :
    calculateBidWithMargin p = (⌊(p - PROFIT_MARGIN) * 100⌋ : ℚ) / 100 := by
  have : ¬ (p - PROFIT_MARGIN ≤ 0) := not_le.mpr h
  simp [calculateBidWithMargin, this]

/-- Unfolding of the calculator on unprofitable prices. -/
theorem calculateBidWithMargin_of_nonpos {p : ℚ} (h : p - PROFIT_MARGIN ≤ 0) :
    calculateBidWithMargin p = 0 := by
  simp [calculateBidWithMargin, h]

/-- JS `toFixed(2)` is the identity on whole multiples of the 0.01 tick. -/
theorem fixed2_int_div (m : ℤ) : fixed2 ((m : ℚ) / 100) = (m : ℚ) / 100 := by
  have h : ((m : ℚ) / 100) * 100 = (m : ℚ) := by
    field_simp
  rw [fixed2, h, round_intCast]

/-- On profitable prices the calculator never exceeds the margin-adjusted
target. -/
theorem bidWithMargin_le_target {p : ℚ} (h : 0 < p - PROFIT_MARGIN) :
    calculateBidWithMargin p ≤ p - PROFIT_MARGIN := by
  rw [calculateBidWithMargin_of_pos h]
  have hle : (⌊(p - PROFIT_MARGIN) * 100⌋ : ℚ) ≤ (p - PROFIT_MARGIN) * 100 :=
    Int.floor_le _
  linarith

/-- On profitable prices the calculator lands within one tick below the
margin-adjusted target. -/
theorem bidWithMargin_within_tick {p : ℚ} (h : 0 < p - PROFIT_MARGIN) :
    p - PROFIT_MARGIN - calculateBidWithMargin p < 1 / 100 := by
  rw [calculateBidWithMargin_of_pos h]
  have hlt : (p - PROFIT_MARGIN) * 100 < ⌊(p - PROFIT_MARGIN) * 100⌋ + 1 :=
    Int.lt_floor_add_one _
  linarith

end Arbitra

namespace Arbitra

/-! ### C1 -/

/-- C1: the claim states a two-branch cross-market capped-outbid policy:
with competitor `c = 0.10`, reference `r = 0.30`, margin `0.005`, increment
`0.00001` and tick `0.01` we have `c < r − margin`, so the claimed result is
`floor(c + increment, 0.01) = 0.10`.  The code has no such policy: its
single-price calculator yields `0.29` on the OpenSea-reference trigger and
`0.09` on the Blur-competitor trigger — neither is the claimed `0.10`. -/
theorem C1_counterexample :
    (10 : ℚ) / 100 < 30 / 100 - PROFIT_MARGIN ∧
    (⌊((10 : ℚ) / 100 + openseaOutbidAmount) * 100⌋ : ℚ) / 100 = 10 / 100 ∧
    calculateBidWithMargin (30 / 100) = 29 / 100 ∧
    calculateBidWithMargin (10 / 100) = 9 / 100 ∧
    (29 : ℚ) / 100 ≠ 10 / 100 ∧ (9 : ℚ) / 100 ≠ 10 / 100 := by
  norm_num [calculateBidWithMargin, PROFIT_MARGIN, openseaOutbidAmount]

/-- C1 (amended): the bid calculator is single-price.  For any observed
price `p` (from whichever marketplace triggered) with `p − margin > 0`, it
returns `p − margin` floored to the `0.01` tick: the result is a whole
number of ticks, does not exceed `p − margin`, and lies within one tick of
it.  There is no outbid-increment branch. -/
theorem C1_single_price_tick_floor (p : ℚ) (h : 0 < p - PROFIT_MARGIN) :
    (∃ n : ℤ, calculateBidWithMargin p = (n : ℚ) / 100) ∧
    calculateBidWithMargin p ≤ p - PROFIT_MARGIN ∧
    p - PROFIT_MARGIN - calculateBidWithMargin p < 1 / 100 := by
  refine ⟨⟨⌊(p - PROFIT_MARGIN) * 100⌋, calculateBidWithMargin_of_pos h⟩,
    bidWithMargin_le_target h, bidWithMargin_within_tick h⟩

/-- Witness for C1 (amended) at the observed price `0.20`. -/
theorem C1_single_price_tick_floor_witness :
    (0 : ℚ) < 20 / 100 - PROFIT_MARGIN ∧
    ((∃ n : ℤ, calculateBidWithMargin (20 / 100) = (n : ℚ) / 100) ∧
      calculateBidWithMargin (20 / 100) ≤ 20 / 100 - PROFIT_MARGIN ∧
      20 / 100 - PROFIT_MARGIN - calculateBidWithMargin (20 / 100) < 1 / 100) :=
  ⟨by norm_num [PROFIT_MARGIN],
    C1_single_price_tick_floor (20 / 100) (by norm_num [PROFIT_MARGIN])⟩

/-! ### C3 -/

/-- C3: at reference price `0.004` and margin `0.005` the cap is negative;
with a ledger entry (`0.15`) present the claim requires a cancel operation
to be the only operation enqueued, but the code enqueues nothing at all:
the action list of the trigger handler is empty. -/
theorem C3_counterexample :
    (4 : ℚ) / 1000 - PROFIT_MARGIN ≤ 0 ∧
    processFromOpenSea (some (4 / 1000)) (some (15 / 100))
        ⟨true, true, true, true⟩ = [] := by
  norm_num [processFromOpenSea, calculateBidWithMargin, PROFIT_MARGIN]

/-- C3 (amended): whenever the cap `p − margin` is not positive, the
calculator returns the sentinel `0` and both trigger handlers skip the key
entirely: no submit and no cancel is enqueued (the action list is empty),
and an existing ledger entry is left unchanged. -/
theorem C3_cap_nonpositive_skips (p : ℚ) (hcap : p - PROFIT_MARGIN ≤ 0)
    (old : Option ℚ) (s : BlurSubmitSteps) :
    calculateBidWithMargin p = 0 ∧
    processFromOpenSea (some p) old s = [] ∧
    processFromBlur (some p) old s = [] ∧
    applyActions old (processFromOpenSea (some p) old s) = old := by
  have h0 : calculateBidWithMargin p = 0 := calculateBidWithMargin_of_nonpos hcap
  have hOS : processFromOpenSea (some p) old s = [] := by
    simp [processFromOpenSea, h0]
  have hB : processFromBlur (some p) old s = [] := by
    simp [processFromBlur, h0]
  exact ⟨h0, hOS, hB, by rw [hOS]; rfl⟩

/-- Witness for C3 (amended) at reference price `0.004` with a stored bid
of `0.15`. -/
theorem C3_cap_nonpositive_skips_witness :
    ((4 : ℚ) / 1000 - PROFIT_MARGIN ≤ 0) ∧
    (calculateBidWithMargin (4 / 1000) = 0 ∧
      processFromOpenSea (some (4 / 1000)) (some (15 / 100))
          ⟨true, true, true, true⟩ = [] ∧
      processFromBlur (some (4 / 1000)) (some (15 / 100))
          ⟨true, true, true, true⟩ = [] ∧
      applyActions (some (15 / 100))
          (processFromOpenSea (some (4 / 1000)) (some (15 / 100))
            ⟨true, true, true, true⟩) = some (15 / 100)) :=
  ⟨by norm_num [PROFIT_MARGIN],
    C3_cap_nonpositive_skips (4 / 1000) (by norm_num [PROFIT_MARGIN])
      (some (15 / 100)) ⟨true, true, true, true⟩⟩

/-! ### C4 -/

/-- C4: at input price `0.004` the unrounded target `0.004 − 0.005` is
negative while the calculator returns the sentinel `0`, so the computed
value exceeds the unrounded target at this input, refuting the universally
quantified claim. -/
theorem C4_counterexample :
    calculateBidWithMargin (4 / 1000) = 0 ∧
    (4 : ℚ) / 1000 - PROFIT_MARGIN < calculateBidWithMargin (4 / 1000) := by
  norm_num [calculateBidWithMargin, PROFIT_MARGIN]

/-- C4 (amended): whenever the margin-adjusted target is positive, the
computed bid never exceeds the unrounded target — every rounding the code
performs (`calculateBidWithMargin` and `calculateBlurAmount`) is a downward
floor to the 0.01 tick.  `calculateOpenseaAmount` applies no rounding at
all: because the configured outbid increment is the string `'0.00001'`, its
final `+` is a JS string concatenation and the function returns a
non-numeric string rather than any rounded amount.  Only the sentinel `0`
returned for non-positive targets (where no bid is placed) can exceed the
target. -/
theorem C4_rounding_never_up :
    (∀ p : ℚ, 0 < p - PROFIT_MARGIN →
      calculateBidWithMargin p ≤ p - PROFIT_MARGIN) ∧
    (∀ b : ℚ, calculateBlurAmount b ≤ b - blurBidDeduction) ∧
    (∀ b : ℚ, calculateOpenseaAmount b =
      JSValue.str
        (jsNumToString (b - openseaBidDeduction) ++ openseaOutbidAmountStr)) := by
  refine ⟨?_, ?_, ?_⟩
  · intro p h
    exact bidWithMargin_le_target h
  · intro b
    have hle : (⌊(b - blurBidDeduction) * 100⌋ : ℚ) ≤ (b - blurBidDeduction) * 100 :=
      Int.floor_le _
    rw [calculateBlurAmount]
    linarith
  · intro b
    rfl

/-- Witness for C4 (amended) at input prices `0.20` and `0.10`. -/
theorem C4_rounding_never_up_witness :
    ((0 : ℚ) < 20 / 100 - PROFIT_MARGIN) ∧
    calculateBidWithMargin (20 / 100) ≤ 20 / 100 - PROFIT_MARGIN ∧
    calculateBlurAmount (20 / 100) ≤ 20 / 100 - blurBidDeduction ∧
    calculateOpenseaAmount (10 / 100) =
      JSValue.str
        (jsNumToString ((10 : ℚ) / 100 - openseaBidDeduction) ++
          openseaOutbidAmountStr) :=
  ⟨by norm_num [PROFIT_MARGIN],
    C4_rounding_never_up.1 (20 / 100) (by norm_num [PROFIT_MARGIN]),
    C4_rounding_never_up.2.1 (20 / 100),
    C4_rounding_never_up.2.2 (10 / 100)⟩

/-! ### C5 -/

/-- A ledger write emitted by the submission protocol is always the
two-decimal rendering of the bid. -/
theorem ledgerWrite_mem_submitNewBlurBid {b v : ℚ} {s : BlurSubmitSteps}
    (hm : BidAction.ledgerWrite v ∈ submitNewBlurBid b s) : v = fixed2 b := by
  obtain ⟨f, g, h, k⟩ := s
  cases f <;> cases g <;> cases h <;> cases k <;> simp_all [submitNewBlurBid]

/-- C5: if any step of the submission protocol (format, signature
extraction, signing, submit) fails, replaying the protocol's actions leaves
the ledger cell exactly as it was; conversely a ledger write in the action
list implies every step succeeded.  The ledger is written only after a
successful submit. -/
theorem C5_ledger_untouched_on_failure (bidEth : ℚ) (s : BlurSubmitSteps) :
    (¬ (s.formatOk = true ∧ s.sigFound = true ∧ s.signOk = true ∧
        s.submitOk = true) →
      ∀ L : Option ℚ, applyActions L (submitNewBlurBid bidEth s) = L) ∧
    (∀ v : ℚ, BidAction.ledgerWrite v ∈ submitNewBlurBid bidEth s →
      s.formatOk = true ∧ s.sigFound = true ∧ s.signOk = true ∧
        s.submitOk = true) := by
  obtain ⟨f, g, h, k⟩ := s
  cases f <;> cases g <;> cases h <;> cases k <;>
    simp [submitNewBlurBid, applyActions]

/-- Witness for C5: with a failing submit step, a stored bid of `0.15`
survives unchanged. -/
theorem C5_ledger_untouched_on_failure_witness :
    applyActions (some (15 / 100))
        (submitNewBlurBid (19 / 100) ⟨true, true, true, false⟩) =
      some (15 / 100) :=
  (C5_ledger_untouched_on_failure (19 / 100) ⟨true, true, true, false⟩).1
    (by decide) (some (15 / 100))

/-! ### C10 -/

/-- The calculator always lands on a whole multiple of the 0.01 tick. -/
theorem bidWithMargin_tick_multiple (p : ℚ) :
    ∃ n : ℤ, calculateBidWithMargin p = (n : ℚ) / 100 := by
  by_cases h : p - PROFIT_MARGIN ≤ 0
  · exact ⟨0, by simp [calculateBidWithMargin_of_nonpos h]⟩
  · push_neg at h
    exact ⟨⌊(p - PROFIT_MARGIN) * 100⌋, calculateBidWithMargin_of_pos h⟩

/-- JS `toFixed(2)` round-trips the calculator's output exactly. -/
theorem fixed2_bidWithMargin (p : ℚ) :
    fixed2 (calculateBidWithMargin p) = calculateBidWithMargin p := by
  obtain ⟨n, hn⟩ := bidWithMargin_tick_multiple p
  rw [hn, fixed2_int_div]

/-- The Blur trigger handler is the same decision function as the OpenSea
trigger handler once the price has been extracted. -/
theorem processFromBlur_eq : processFromBlur = processFromOpenSea := rfl

/-- A ledger write emitted by a trigger handler forces a positive
calculated bid and carries its two-decimal rendering. -/
theorem ledgerWrite_mem_processFromOpenSea {p v : ℚ} {old : Option ℚ}
    {s : BlurSubmitSteps}
    (hm : BidAction.ledgerWrite v ∈ processFromOpenSea (some p) old s) :
    0 < calculateBidWithMargin p ∧ v = calculateBidWithMargin p := by
  by_cases h0 : calculateBidWithMargin p ≤ 0
  · simp [processFromOpenSea, h0] at hm
  · push_neg at h0
    refine ⟨h0, ?_⟩
    simp only [processFromOpenSea, not_le.mpr h0, if_false] at hm
    have hv : v = fixed2 (calculateBidWithMargin p) := by
      cases old with
      | none => exact ledgerWrite_mem_submitNewBlurBid hm
      | some o =>
        by_cases ho : o = calculateBidWithMargin p
        · simp [ho] at hm
        · simp only [if_neg ho] at hm
          exact ledgerWrite_mem_submitNewBlurBid hm
    rw [hv, fixed2_bidWithMargin]

/-- Re-triggering at the same observed price with the freshly stored bid
value produces no action (the exact-equality unchanged check fires). -/
theorem process_unchanged_after_write {p : ℚ}
    (h0 : 0 < calculateBidWithMargin p) (s2 : BlurSubmitSteps) :
    processFromOpenSea (some p) (some (calculateBidWithMargin p)) s2 = [] := by
  simp [processFromOpenSea, not_le.mpr h0]

/-- C10: every value written to the `Bid:Blur:<contract>` ledger key by
either trigger handler is a positive whole multiple of the 0.01 tick, and
reprocessing the same observed price against the stored value yields no
operation — the exact-equality unchanged check is reliable. -/
theorem C10_ledger_writes_tick_multiples (p : ℚ) (old : Option ℚ)
    (s : BlurSubmitSteps) (v : ℚ)
    (hm : BidAction.ledgerWrite v ∈ processFromOpenSea (some p) old s ∨
      BidAction.ledgerWrite v ∈ processFromBlur (some p) old s) :
    (∃ n : ℕ, v = (n : ℚ) / 100) ∧ 0 < v ∧
    ∀ s2 : BlurSubmitSteps,
      processFromOpenSea (some p) (some v) s2 = [] ∧
      processFromBlur (some p) (some v) s2 = [] := by
  rw [processFromBlur_eq, or_self] at hm
  obtain ⟨hpos, hv⟩ := ledgerWrite_mem_processFromOpenSea hm
  obtain ⟨m, hmul⟩ := bidWithMargin_tick_multiple p
  have hm0 : (0 : ℚ) < (m : ℚ) / 100 := by rw [← hmul]; exact hpos
  have hmpos : 0 < m := by
    by_contra hneg
    push_neg at hneg
    have : (m : ℚ) / 100 ≤ 0 := by
      apply div_nonpos_of_nonpos_of_nonneg
      · exact_mod_cast hneg
      · norm_num
    linarith
  refine ⟨⟨m.toNat, ?_⟩, ?_, ?_⟩
  · rw [hv, hmul]
    congr 1
    exact_mod_cast (Int.toNat_of_nonneg hmpos.le).symm
  · rw [hv]; exact hpos
  · intro s2
    rw [processFromBlur_eq, and_self, hv]
    exact process_unchanged_after_write hpos s2

/-- Witness for C10: the write produced at observed price `0.20` stores
`0.19`, a whole multiple of the tick. -/
theorem C10_ledger_writes_tick_multiples_witness :
    (∃ n : ℕ, (19 : ℚ) / 100 = (n : ℚ) / 100) ∧ 0 < (19 : ℚ) / 100 ∧
    ∀ s2 : BlurSubmitSteps,
      processFromOpenSea (some (20 / 100)) (some ((19 : ℚ) / 100)) s2 = [] ∧
      processFromBlur (some (20 / 100)) (some ((19 : ℚ) / 100)) s2 = [] :=
  C10_ledger_writes_tick_multiples (20 / 100) none ⟨true, true, true, true⟩
    (19 / 100)
    (Or.inl (by
      norm_num [processFromOpenSea, submitNewBlurBid, calculateBidWithMargin,
        PROFIT_MARGIN, fixed2, round_eq]))

/-! ### C6 -/

/-- C6: the comparison of the polling loop is not byte-level on the fetched
string: with cached value `"0.18"`, a fetch of `"0.18 "` (trailing space, a
byte-level difference from the cached string) produces NO change event —
the loop compares the whitespace-trimmed fetch, refuting the claimed
if-and-only-if. -/
theorem C6_counterexample :
    "0.18 " ≠ "0.18" ∧
    pollKey (some "0.18") (some "0.18 ") = (some "0.18", false) := by
  constructor
  · decide
  · decide

/-- C6 (amended): for an already-seen key, a poll tick with a non-empty
fetched value emits a change event exactly when the whitespace-trimmed
fetch differs (by exact string equality) from the cached last-seen value
(itself stored trimmed); and feeding the same raw value again immediately
afterwards never produces a second event. -/
theorem C6_trimmed_change_detection (prev r : String) (hr : r ≠ "") :
    ((pollKey (some prev) (some r)).2 = true ↔ jsTrim r ≠ prev) ∧
    (pollKey (pollKey (some prev) (some r)).1 (some r)).2 = false := by
  by_cases hc : prev = jsTrim r
  · constructor
    · simp [pollKey, hr, hc]
    · simp [pollKey, hr, hc]
  · have hc2 : prev ≠ jsTrim r := hc
    constructor
    · simp [pollKey, hr, hc2]
      exact fun h => hc2 h.symm
    · simp [pollKey, hr, hc2]

/-- Witness for C6 (amended): cached `"0.18"`, fetched `"0.19"`. -/
theorem C6_trimmed_change_detection_witness :
    ("0.19" ≠ "") ∧
    (((pollKey (some "0.18") (some "0.19")).2 = true ↔
        jsTrim "0.19" ≠ "0.18") ∧
      (pollKey (pollKey (some "0.18") (some "0.19")).1 (some "0.19")).2 =
        false) :=
  ⟨by decide, C6_trimmed_change_detection "0.18" "0.19" (by decide)⟩

/-! ### C7 -/

/-- C7: on first observation of a key the monitor treats it as a change and
acts, except for baseline-only keys: the initial Blur population records
exactly the same trimmed cache as the OpenSea one would but acts on no
contract, while the initial OpenSea population acts on every key carrying a
non-empty value; keys first observed by the polling loop (absent from the
cache) are acted upon — and the per-key poll step is the same function for
both marketplaces. -/
theorem C7_baseline_only_asymmetry (entries : List (String × Option String)) :
    (initBlur entries).1 = (initOpenSea entries).1 ∧
    (initBlur entries).2 = [] ∧
    (∀ c r, (c, some r) ∈ entries → r ≠ "" → c ∈ (initOpenSea entries).2) ∧
    (∀ r : String, r ≠ "" → (pollKey none (some r)).2 = true) := by
  refine ⟨?_, ?_, ?_, ?_⟩
  · induction entries with
    | nil => rfl
    | cons e rest ih =>
      obtain ⟨c, raw⟩ := e
      cases raw with
      | none => simpa [initBlur, initOpenSea] using ih
      | some r =>
        by_cases hr : r = ""
        · simpa [initBlur, initOpenSea, hr] using ih
        · simpa [initBlur, initOpenSea, hr] using ih
  · induction entries with
    | nil => rfl
    | cons e rest ih =>
      obtain ⟨c, raw⟩ := e
      cases raw with
      | none => simpa [initBlur] using ih
      | some r =>
        by_cases hr : r = ""
        · simpa [initBlur, hr] using ih
        · simpa [initBlur, hr] using ih
  · induction entries with
    | nil => intro c r hmem; simp at hmem
    | cons e rest ih =>
      intro c r hmem hr
      rcases List.mem_cons.mp hmem with he | htail
      · subst he
        simp [initOpenSea, hr]
      · obtain ⟨c0, raw0⟩ := e
        have hc : c ∈ (initOpenSea rest).2 := ih c r htail hr
        cases raw0 with
        | none => simpa [initOpenSea] using hc
        | some r0 =>
          by_cases hr0 : r0 = ""
          · simpa [initOpenSea, hr0] using hc
          · simp [initOpenSea, hr0]
            exact Or.inr hc
  · intro r hr
    simp [pollKey, hr]

/-- Witness for C7 at a two-key startup population. -/
theorem C7_baseline_only_asymmetry_witness :
    ((initBlur [("0xa", some "1.0"), ("0xb", none)]).1 =
        (initOpenSea [("0xa", some "1.0"), ("0xb", none)]).1 ∧
      (initBlur [("0xa", some "1.0"), ("0xb", none)]).2 = [] ∧
      "0xa" ∈ (initOpenSea [("0xa", some "1.0"), ("0xb", none)]).2 ∧
      (pollKey none (some "1.0")).2 = true) := by
  obtain ⟨h1, h2, h3, h4⟩ :=
    C7_baseline_only_asymmetry [("0xa", some "1.0"), ("0xb", none)]
  exact ⟨h1, h2, h3 "0xa" "1.0" (by decide) (by decide),
    h4 "1.0" (by decide)⟩

/-! ### C8 and C9 -/

/-- Full characterization of the queue drain: starting from any queue
contents, every queued operation is executed exactly once, in queue order,
whether it succeeds or throws, and the drain ends with an empty queue and a
cleared processing flag. -/
theorem processQueue_run (q : List QOp) (b : Bool) (ex : List ℕ) :
    processQueue ⟨q, b, ex⟩ = ⟨[], false, ex ++ q.map QOp.id⟩ := by
  induction q generalizing b ex with
  | nil => simp [processQueue]
  | cons op rest ih =>
    rw [processQueue]
    rw [ih true (ex ++ [op.id])]
    simp

/-- Draining after each enqueue from the idle state executes every
operation, in enqueue order. -/
theorem foldl_addToQueue_run (ops : List QOp) (ex : List ℕ) :
    ops.foldl addToQueue ⟨[], false, ex⟩ =
      ⟨[], false, ex ++ ops.map QOp.id⟩ := by
  induction ops generalizing ex with
  | nil => simp
  | cons op rest ih =>
    have hstep : addToQueue ⟨[], false, ex⟩ op = ⟨[], false, ex ++ [op.id]⟩ := by
      rw [addToQueue]
      simp [processQueue_run]
    rw [List.foldl_cons, hstep, ih]
    simp

/-- C8: the OperationQueue is a strictly serialized FIFO runner.  The drain
executes the queued operations one at a time in enqueue order, an operation
that throws (`ok = false`) is logged exactly like a successful one and does
not prevent any later operation from executing; an enqueue that arrives
while a drain is in progress only appends (no second concurrent drain is
started); and any sequence of enqueues from the idle state executes
precisely the enqueued operations in enqueue order. -/
theorem C8_queue_serialized_fifo :
    (∀ (q : List QOp) (b : Bool) (ex : List ℕ),
      processQueue ⟨q, b, ex⟩ = ⟨[], false, ex ++ q.map QOp.id⟩) ∧
    (∀ (st : QState) (op : QOp), st.processing = true →
      addToQueue st op = ⟨st.queue ++ [op], true, st.executed⟩) ∧
    (∀ ops : List QOp,
      (ops.foldl addToQueue ⟨[], false, []⟩).executed = ops.map QOp.id) := by
  refine ⟨processQueue_run, ?_, ?_⟩
  · intro st op h
    rw [addToQueue]
    simp [h]
  · intro ops
    rw [foldl_addToQueue_run ops []]
    simp

/-- Witness for C8 with a two-operation queue whose first operation throws,
and an enqueue arriving while the processing flag is held. -/
theorem C8_queue_serialized_fifo_witness :
    processQueue ⟨[⟨1, false⟩, ⟨2, true⟩], true, []⟩ =
        ⟨[], false, [] ++ [⟨1, false⟩, ⟨2, true⟩].map QOp.id⟩ ∧
    addToQueue ⟨[⟨1, false⟩], true, []⟩ ⟨2, true⟩ =
        ⟨[⟨1, false⟩] ++ [⟨2, true⟩], true, []⟩ :=
  ⟨C8_queue_serialized_fifo.1 [⟨1, false⟩, ⟨2, true⟩] true [],
    C8_queue_serialized_fifo.2.1 ⟨[⟨1, false⟩], true, []⟩ ⟨2, true⟩ rfl⟩

/-- C9: the recursive drain terminates (it is a total function of the
queue), leaves the queue empty with the processing flag reset to `false`,
and a later enqueue restarts draining: enqueueing one more operation onto
the drained state executes it immediately. -/
theorem C9_drain_terminates_and_restarts (st : QState) :
    (processQueue st).queue = [] ∧
    (processQueue st).processing = false ∧
    ∀ op : QOp,
      (addToQueue (processQueue st) op).executed =
        (processQueue st).executed ++ [op.id] ∧
      (addToQueue (processQueue st) op).queue = [] := by
  obtain ⟨q, b, ex⟩ := st
  rw [processQueue_run]
  refine ⟨rfl, rfl, ?_⟩
  intro op
  rw [addToQueue]
  simp [processQueue_run]

/-! ### C2 -/

/-- Evaluating a point update of the storage at the updated key. -/
theorem setKey_self (st : Storage) (c : String) (p : Platform)
    (l : List NftBid) : setKey st c p l c p = l := by
  simp [setKey]

/-- Evaluating a point update of the storage away from the updated key. -/
theorem setKey_other (st : Storage) (c2 : String) (p2 : Platform)
    (l : List NftBid) (c : String) (p : Platform) (h : ¬ (c = c2 ∧ p = p2)) :
    setKey st c2 p2 l c p = st c p := by
  simp [setKey, h]

/-- Removal produces a sublist of the stored list. -/
theorem removeFirstByNonce_sublist (l : List NftBid) (n : ℕ) :
    List.Sublist (removeFirstByNonce l n) l := by
  induction l with
  | nil => simp [removeFirstByNonce]
  | cons b rest ih =>
    rw [removeFirstByNonce]
    by_cases h : b.nonce = n
    · rw [if_pos h]
      exact List.sublist_cons_self b rest
    · rw [if_neg h]
      exact ih.cons₂ b

/-- Replacement with an equal nonce leaves the stored nonce sequence
unchanged. -/
theorem replaceFirstByNonce_map_nonce (l : List NftBid) (n : ℕ)
    (b2 : NftBid) (h : b2.nonce = n) :
    (replaceFirstByNonce l n b2).map NftBid.nonce = l.map NftBid.nonce := by
  induction l with
  | nil => rfl
  | cons b rest ih =>
    rw [replaceFirstByNonce]
    by_cases hb : b.nonce = n
    · rw [if_pos hb]
      simp only [List.map_cons, h, hb]
    · rw [if_neg hb]
      simp only [List.map_cons, ih]

/-- Replacement preserves the count of any predicate that agrees on the
replaced bid and its replacement. -/
theorem replaceFirstByNonce_filter_length (P : NftBid → Bool)
    (l : List NftBid) (n : ℕ) (b2 : NftBid)
    (h : ∀ x ∈ l, x.nonce = n → P x = P b2) :
    ((replaceFirstByNonce l n b2).filter P).length =
      (l.filter P).length := by
  induction l with
  | nil => rfl
  | cons b rest ih =>
    rw [replaceFirstByNonce]
    by_cases hb : b.nonce = n
    · have hP : P b = P b2 := h b (List.mem_cons_self b rest) hb
      rw [if_pos hb]
      cases hPb : P b2 <;>
        simp [List.filter_cons, hP, hPb]
    · have ih2 := ih fun x hx hxn => h x (List.mem_cons_of_mem b hx) hxn
      rw [if_neg hb]
      cases hPb : P b <;> simp [List.filter_cons, hPb, ih2]

/-- Distinct stored nonces identify bids uniquely. -/
theorem nodup_nonce_inj {l : List NftBid}
    (hn : (l.map NftBid.nonce).Nodup) {x y : NftBid} (hx : x ∈ l)
    (hy : y ∈ l) (hxy : x.nonce = y.nonce) : x = y :=
  List.inj_on_of_nodup_map hn hx hy hxy

/-- Membership in the active-bid filter. -/
theorem mem_activeBidsIn {now : ℕ} {l : List NftBid} {b : NftBid} :
    b ∈ activeBidsIn now l ↔
      b ∈ l ∧ (b.status = BidStatus.active ∧ now < b.expirationTime) := by
  simp [activeBidsIn]

/-- A single serialized operation never increases the number of active,
unexpired bids stored at a key whose nonces are distinct: the dedup branch
updates an existing active bid in place, a genuine submission appends a
`pending` bid, and a cancel removes at most one bid. -/
theorem applyOp_activeCount_le (now : ℕ) (st : Storage) (op : LedgerOp)
    (c : String) (p : Platform)
    (hn : ((st c p).map NftBid.nonce).Nodup) :
    activeCount now (applyOp now st op) c p ≤ activeCount now st c p := by
  cases op with
  | cancel p2 c2 n =>
    by_cases hk : c = c2 ∧ p = p2
    · obtain ⟨hc, hp⟩ := hk
      subst hc; subst hp
      simp only [applyOp, setKey_self, activeCount]
      exact List.Sublist.length_le
        (List.Sublist.filter _ (removeFirstByNonce_sublist (st c p) n))
    · simp only [applyOp, activeCount, setKey_other st c2 p2 _ c p hk]
      exact le_refl _
  | submit p2 c2 a n e ok =>
    cases hex : activeBidsIn now (st c2 p2) with
    | cons existing tl =>
      simp only [applyOp, hex]
      by_cases ha : existing.amount ≠ a
      · rw [if_pos ha]
        by_cases hk : c = c2 ∧ p = p2
        · obtain ⟨hc, hp⟩ := hk
          subst hc; subst hp
          unfold activeCount
          rw [setKey_self]
          apply le_of_eq
          unfold activeBidsIn
          apply replaceFirstByNonce_filter_length
          intro x hx hxn
          have hmem : existing ∈ activeBidsIn now (st c p) := by
            rw [hex]; exact List.mem_cons_self _ _
          have hex2 := mem_activeBidsIn.mp hmem
          have hx2 : x = existing := nodup_nonce_inj hn hx hex2.1 hxn
          subst hx2
          rfl
        · unfold activeCount
          rw [setKey_other st c2 p2 _ c p hk]
      · rw [if_neg ha]
    | nil =>
      simp only [applyOp, hex]
      by_cases hok : ok = true ∧
          validateBid now ⟨c2, p2, a, e, n, BidStatus.pending⟩
      · rw [if_pos hok]
        by_cases hk : c = c2 ∧ p = p2
        · obtain ⟨hc, hp⟩ := hk
          subst hc; subst hp
          unfold activeCount
          rw [setKey_self]
          unfold activeBidsIn
          rw [List.filter_append]
          simp
        · unfold activeCount
          rw [setKey_other st c2 p2 _ c p hk]
      · rw [if_neg hok]

/-- A single serialized operation with a fresh nonce preserves distinctness
of the nonces stored at a key. -/
theorem applyOp_nodup (now : ℕ) (st : Storage) (op : LedgerOp) (c : String)
    (p : Platform) (hn : ((st c p).map NftBid.nonce).Nodup)
    (hf : opFreshAt st c p op) :
    (((applyOp now st op) c p).map NftBid.nonce).Nodup := by
  cases op with
  | cancel p2 c2 n =>
    by_cases hk : c = c2 ∧ p = p2
    · obtain ⟨hc, hp⟩ := hk
      subst hc; subst hp
      simp only [applyOp, setKey_self]
      exact hn.sublist (List.Sublist.map _ (removeFirstByNonce_sublist _ n))
    · simp only [applyOp, setKey_other st c2 p2 _ c p hk]
      exact hn
  | submit p2 c2 a n e ok =>
    cases hex : activeBidsIn now (st c2 p2) with
    | cons existing tl =>
      simp only [applyOp, hex]
      by_cases ha : existing.amount ≠ a
      · rw [if_pos ha]
        by_cases hk : c = c2 ∧ p = p2
        · obtain ⟨hc, hp⟩ := hk
          subst hc; subst hp
          rw [setKey_self]
          rw [replaceFirstByNonce_map_nonce (st c p) existing.nonce
            { existing with amount := a } rfl]
          exact hn
        · rw [setKey_other st c2 p2 _ c p hk]
          exact hn
      · rw [if_neg ha]
        exact hn
    | nil =>
      simp only [applyOp, hex]
      by_cases hok : ok = true ∧
          validateBid now ⟨c2, p2, a, e, n, BidStatus.pending⟩
      · rw [if_pos hok]
        by_cases hk : c = c2 ∧ p = p2
        · obtain ⟨hc, hp⟩ := hk
          subst hc; subst hp
          rw [setKey_self]
          have hfresh : n ∉ keyNonces st c p := hf ⟨rfl, rfl⟩
          rw [List.map_append]
          rw [List.nodup_append]
          refine ⟨hn, List.nodup_singleton n, ?_⟩
          intro m hm hm2
          simp only [List.map_cons, List.map_nil, List.mem_singleton] at hm2
          subst hm2
          exact hfresh hm
        · rw [setKey_other st c2 p2 _ c p hk]
          exact hn
      · rw [if_neg hok]
        exact hn

/-- C2: twice submitting a bid for the same (collection, marketplace) key
from an empty ledger records TWO bids in non-terminal status for the key,
refuting the claimed invariant: the duplicate check of `submitBid` consults
`getActiveBids`, which only sees status `active`, while `addBid` records
new bids with status `pending` (and nothing in the engine ever promotes
them), so the second submit does not see the first. -/
theorem C2_counterexample :
    nonTerminalCount
      (applyOps 0 emptyStorage
        [LedgerOp.submit Platform.blur
          "0xaaaaaaaaaaaaaaaaaaaaaaaaaaaaaaaaaaaaaaaa" 1 1 100 true,
         LedgerOp.submit Platform.blur
          "0xaaaaaaaaaaaaaaaaaaaaaaaaaaaaaaaaaaaaaaaa" 2 2 100 true])
      "0xaaaaaaaaaaaaaaaaaaaaaaaaaaaaaaaaaaaaaaaa" Platform.blur = 2 := by
  have hv1 : validateBid 0
      ⟨"0xaaaaaaaaaaaaaaaaaaaaaaaaaaaaaaaaaaaaaaaa", Platform.blur, 1, 100, 1,
        BidStatus.pending⟩ :=
    ⟨by decide, by norm_num, by norm_num [minBidAmount],
      by norm_num [maxBidAmount], by norm_num⟩
  have hv2 : validateBid 0
      ⟨"0xaaaaaaaaaaaaaaaaaaaaaaaaaaaaaaaaaaaaaaaa", Platform.blur, 2, 100, 2,
        BidStatus.pending⟩ :=
    ⟨by decide, by norm_num, by norm_num [minBidAmount],
      by norm_num [maxBidAmount], by norm_num⟩
  simp [applyOps, applyOp, emptyStorage, activeBidsIn, setKey,
    nonTerminalCount, hv1, hv2, List.filter]

/-- C2 (amended): what the serialized operations do preserve is the count
of bids with status `active` (and unexpired): across every sequence of
submit/cancel operations whose fresh nonces do not collide with stored
ones, the number of active bids per key never increases — in particular "at
most one active bid per key" is an invariant.  The claimed version over
{pending, active} fails (see the two-pending-bids counterexample) because
the dedup check ignores `pending` bids. -/
theorem C2_active_count_preserved (now : ℕ) (st : Storage) (c : String)
    (p : Platform) (ops : List LedgerOp)
    (hn : ((st c p).map NftBid.nonce).Nodup)
    (hf : freshOpsFor now st c p ops = true) :
    activeCount now (applyOps now st ops) c p ≤ activeCount now st c p ∧
    (activeCount now st c p ≤ 1 →
      activeCount now (applyOps now st ops) c p ≤ 1) := by
  suffices h : activeCount now (applyOps now st ops) c p ≤
      activeCount now st c p from ⟨h, fun h1 => le_trans h h1⟩
  induction ops generalizing st with
  | nil => exact le_refl _
  | cons op rest ih =>
    simp only [freshOpsFor, Bool.and_eq_true] at hf
    obtain ⟨hhead, htail⟩ := hf
    have hfresh : opFreshAt st c p op := by
      cases op with
      | submit p2 c2 a n e ok =>
        intro hkey
        obtain ⟨hc, hp⟩ := hkey
        subst hc; subst hp
        simpa using hhead
      | cancel p2 c2 n => trivial
    have hn2 := applyOp_nodup now st op c p hn hfresh
    have hstep := applyOp_activeCount_le now st op c p hn
    have htailLe := ih (applyOp now st op) hn2 htail
    rw [applyOps, List.foldl_cons]
    exact le_trans htailLe hstep

/-- Witness for C2 (amended): one submit then one cancel from the empty
ledger keeps the active count at zero. -/
theorem C2_active_count_preserved_witness :
    activeCount 0
        (applyOps 0 emptyStorage
          [LedgerOp.submit Platform.blur
            "0xbbbbbbbbbbbbbbbbbbbbbbbbbbbbbbbbbbbbbbbb" 1 1 100 true,
           LedgerOp.cancel Platform.blur
            "0xbbbbbbbbbbbbbbbbbbbbbbbbbbbbbbbbbbbbbbbb" 1])
        "0xbbbbbbbbbbbbbbbbbbbbbbbbbbbbbbbbbbbbbbbb" Platform.blur ≤
      activeCount 0 emptyStorage
        "0xbbbbbbbbbbbbbbbbbbbbbbbbbbbbbbbbbbbbbbbb" Platform.blur :=
  (C2_active_count_preserved 0 emptyStorage
    "0xbbbbbbbbbbbbbbbbbbbbbbbbbbbbbbbbbbbbbbbb" Platform.blur
    [LedgerOp.submit Platform.blur
      "0xbbbbbbbbbbbbbbbbbbbbbbbbbbbbbbbbbbbbbbbb" 1 1 100 true,
     LedgerOp.cancel Platform.blur
      "0xbbbbbbbbbbbbbbbbbbbbbbbbbbbbbbbbbbbbbbbb" 1]
    (by simp [emptyStorage])
    (by simp [freshOpsFor, keyNonces, emptyStorage, applyOp])).1

end Arbitra
